import Mathlib

/-!
Verification of the route-assignment and cost-evaluation engine of a
delivery route optimizer (src/app.py).

The engine consists of a greedy assignment algorithm (`optimize_routes`),
a sequential single-driver baseline, a fuel-cost formula, and savings
deltas.  The Python code compares distances only through `<`, so the
distance function is embedded as an arbitrary function into `ℚ`
(abstracting the real-valued `calculate_distance`); every property proved
below holds for each such function, hence in particular for the function
the program actually uses.  The great-circle distance itself lives in the
`geopy` library, outside this repository, and is modelled separately from
the spec over `ℝ`.
-/

namespace App

/-- Coordinates: a (latitude, longitude) pair.  The assignment engine only
consumes coordinates through the distance function, so they are embedded as
pairs of rationals. -/
abbrev Coord := ℚ × ℚ

/-- A delivery record as built at line 129 of app.py: an address label paired
with coordinates. -/
structure Stop where
  address : String
  coords : Coord
deriving DecidableEq, Inhabited

/-- Fallback stop for indexed list access.  Every index the algorithm uses is
in range, so this fallback is never actually read. -/
def dummyStop : Stop := ⟨"", (0, 0)⟩

/-- The seed stop placed at the head of every route (line 42 of app.py). -/
def startStop (start_coords : Coord) : Stop :=
  ⟨"Start Location", start_coords⟩

/-- Distance from driver `di`'s current last stop (`route[-1]`, line 53) to
unassigned delivery `ui` (line 56). -/
def pairDist (dist : Coord → Coord → ℚ) (routes : List (List Stop))
    (unassigned : List Stop) (di ui : ℕ) : ℚ :=
  dist ((routes.getD di []).getLastD dummyStop).coords
    ((unassigned.getD ui dummyStop).coords)

/-- The (distance, driver index, delivery index) triples scanned by the nested
loops at lines 52-61 of app.py, in their enumeration order: driver index
ascending, then delivery index ascending. -/
def candidates (dist : Coord → Coord → ℚ) (routes : List (List Stop))
    (unassigned : List Stop) : List (ℚ × ℕ × ℕ) :=
  (List.range routes.length).flatMap fun di =>
    (List.range unassigned.length).map fun ui =>
      (pairDist dist routes unassigned di ui, di, ui)

/-- One comparison of the scan: the running best is replaced exactly when the
new candidate's distance is strictly smaller (`current_distance <
min_distance`, line 58), so ties keep the earlier candidate. -/
def scanStep (best : Option (ℚ × ℕ × ℕ)) (c : ℚ × ℕ × ℕ) : Option (ℚ × ℕ × ℕ) :=
  match best with
  | none => some c
  | some b => if c.1 < b.1 then some c else some b

/-- The (distance, driver, delivery) choice made by one iteration of the while
loop: the scan of lines 47-61 starting from `min_distance = inf`. -/
def findBest (dist : Coord → Coord → ℚ) (routes : List (List Stop))
    (unassigned : List Stop) : Option (ℚ × ℕ × ℕ) :=
  (candidates dist routes unassigned).foldl scanStep none

/-- The while loop of lines 46-69 of app.py on the state (routes, unassigned
pool).  `fuel` bounds the number of iterations; the caller instantiates it
with the pool size, which is exact since each iteration removes one delivery.
The `none` branch is the `best_driver_index == -1` break at line 69. -/
def assignLoop (dist : Coord → Coord → ℚ) :
    ℕ → List (List Stop) → List Stop → List (List Stop) × List Stop
  | 0, routes, pool => (routes, pool)
  | fuel + 1, routes, pool =>
    if pool = [] then (routes, pool)
    else
      match findBest dist routes pool with
      | none => (routes, pool)
      | some (_, di, ui) =>
          assignLoop dist fuel
            (routes.set di (routes.getD di [] ++ [pool.getD ui dummyStop]))
            (pool.eraseIdx ui)

/-- Route initialisation at line 42: one single-stop route per driver. -/
def initRoutes (start_coords : Coord) (k : ℕ) : List (List Stop) :=
  List.replicate k [startStop start_coords]

/-- optimize_routes, lines 33-71 of app.py.  `num_drivers` is an integer and
the guard at line 38 returns `[]` when the delivery list is empty or the
driver count is non-positive. -/
def optimize_routes (dist : Coord → Coord → ℚ) (start_coords : Coord)
    (deliveries : List Stop) (num_drivers : ℤ) : List (List Stop) :=
  if deliveries = [] ∨ num_drivers ≤ 0 then []
  else
    (assignLoop dist deliveries.length
      (initRoutes start_coords num_drivers.toNat) deliveries).1

/-- The baseline loop of lines 140-146 of app.py: fold over the deliveries
threading the state (unoptimized_distance, current_location). -/
def baseline (dist : Coord → Coord → ℚ) (start_coords : Coord)
    (deliveries : List Stop) : ℚ :=
  (deliveries.foldl (fun st d => (st.1 + dist st.2 d.coords, d.coords))
    ((0 : ℚ), start_coords)).1

/-- The fuel-cost formula of lines 148 and 183 of app.py:
`(distance / avg_mpg) * fuel_price_per_gallon`. -/
def fuel_cost (total_distance avg_mpg fuel_price_per_gallon : ℚ) : ℚ :=
  (total_distance / avg_mpg) * fuel_price_per_gallon

/-- distance_saved, line 185 of app.py. -/
def distance_saved (unoptimized_distance total_optimized_distance : ℚ) : ℚ :=
  unoptimized_distance - total_optimized_distance

/-- fuel_cost_saved, line 186 of app.py. -/
def fuel_cost_saved (unoptimized_fuel_cost optimized_fuel_cost : ℚ) : ℚ :=
  unoptimized_fuel_cost - optimized_fuel_cost

/-- Store of Python list objects for the aliasing argument: cell `r` holds the
current contents of the list object whose identity is `r`.  Reads of an
unallocated cell return `[]`; the algorithm only ever reads allocated cells. -/
abbrev ListStore := List (List Stop)

/-- Contents of list object `r`. -/
def readL (σ : ListStore) (r : ℕ) : List Stop := σ.getD r []

/-- In-place update of list object `r`. -/
def writeL (σ : ListStore) (r : ℕ) (v : List Stop) : ListStore := σ.set r v

/-- The while loop of lines 46-69 acting on a store: the unassigned pool is
the list object `poolRef`, and `unassigned_deliveries.pop(best_delivery_index)`
at line 65 mutates that object in place. -/
def assignLoopH (dist : Coord → Coord → ℚ) :
    ℕ → List (List Stop) → ListStore → ℕ → List (List Stop) × ListStore
  | 0, routes, σ, _ => (routes, σ)
  | fuel + 1, routes, σ, poolRef =>
    if readL σ poolRef = [] then (routes, σ)
    else
      match findBest dist routes (readL σ poolRef) with
      | none => (routes, σ)
      | some (_, di, ui) =>
          assignLoopH dist fuel
            (routes.set di
              (routes.getD di [] ++ [(readL σ poolRef).getD ui dummyStop]))
            (writeL σ poolRef ((readL σ poolRef).eraseIdx ui)) poolRef

/-- optimize_routes acting on a store.  The caller's deliveries list is the
object `delRef`; `deliveries.copy()` at line 43 allocates a fresh object at
the end of the store holding the same elements, and the loop pops only from
that copy. -/
def optimize_routes_heap (dist : Coord → Coord → ℚ) (start_coords : Coord)
    (σ : ListStore) (delRef : ℕ) (num_drivers : ℤ) :
    List (List Stop) × ListStore :=
  if readL σ delRef = [] ∨ num_drivers ≤ 0 then ([], σ)
  else
    assignLoopH dist (readL σ delRef).length
      (initRoutes start_coords num_drivers.toNat)
      (σ ++ [readL σ delRef]) σ.length

/-- Degrees to radians. -/
noncomputable def toRadians (deg : ℝ) : ℝ := deg * Real.pi / 180

/-- Mean Earth radius in miles. -/
noncomputable def earthRadiusMiles : ℝ := 3958.7613

/-- Modelled from the spec: `calculate_distance` (line 27 of app.py) delegates
to `geopy.distance.great_circle`, library code outside this repository.  Spec
§4.1 requires a standard great-circle formula — haversine on a mean Earth
radius — returning miles; this embeds that formula over `ℝ`. -/
noncomputable def calculate_distance (c1 c2 : ℝ × ℝ) : ℝ :=
  2 * earthRadiusMiles *
    Real.arcsin (Real.sqrt (
      Real.sin ((toRadians c2.1 - toRadians c1.1) / 2) ^ 2 +
      Real.cos (toRadians c1.1) * Real.cos (toRadians c2.1) *
        Real.sin ((toRadians c2.2 - toRadians c1.2) / 2) ^ 2))

/-- The consecutive legs start → d0 → d1 → ... → dlast of a delivery list,
as distance summands in input order. -/
def legDistances (dist : Coord → Coord → ℚ) (start_coords : Coord)
    (deliveries : List Stop) : List ℚ :=
  ((start_coords :: deliveries.map Stop.coords).zip
    (deliveries.map Stop.coords)).map fun p => dist p.1 p.2

lemma baseline_foldl_aux (dist : Coord → Coord → ℚ) :
    ∀ (deliveries : List Stop) (a : ℚ) (c : Coord),
      (deliveries.foldl (fun st d => (st.1 + dist st.2 d.coords, d.coords))
        (a, c)).1 = a + (legDistances dist c deliveries).sum := by
  intro deliveries
  induction deliveries with
  | nil => intro a c; simp [legDistances]
  | cons d ds ih =>
      intro a c
      simp only [List.foldl_cons, ih, legDistances, List.map_cons, List.zip_cons_cons,
        List.sum_cons]
      ring

lemma foldl_scanStep_split :
    ∀ (L : List (ℚ × ℕ × ℕ)) (a : ℚ × ℕ × ℕ),
      ∃ L₁ L₂ m, L.foldl scanStep (some a) = some m ∧
        a :: L = L₁ ++ m :: L₂ ∧
        (∀ c ∈ L₁, m.1 < c.1) ∧ (∀ c ∈ L₂, m.1 ≤ c.1) := by
  intro L
  induction L with
  | nil =>
      intro a
      exact ⟨[], [], a, rfl, rfl, by simp, by simp⟩
  | cons c cs ih =>
      intro a
      by_cases hca : c.1 < a.1
      · obtain ⟨L₁, L₂, m, hfold, hsplit, h₁, h₂⟩ := ih c
        have hstep : ((c :: cs).foldl scanStep (some a)) = cs.foldl scanStep (some c) := by
          simp [scanStep, hca]
        cases L₁ with
        | nil =>
            simp only [List.nil_append] at hsplit
            have hm : c = m := (List.cons.inj hsplit).1
            refine ⟨[a], L₂, m, by rw [hstep]; exact hfold,
              by simp [hsplit], ?_, h₂⟩
            intro x hx
            rcases List.mem_cons.mp hx with rfl | hx2
            · rw [← hm]; exact hca
            · exact absurd hx2 (List.not_mem_nil x)
        | cons c0 t =>
            simp only [List.cons_append] at hsplit
            have hc0 : c = c0 := (List.cons.inj hsplit).1
            have hcs : cs = t ++ m :: L₂ := (List.cons.inj hsplit).2
            have hmc : m.1 < c0.1 := h₁ c0 (List.mem_cons_self _ _)
            refine ⟨a :: c0 :: t, L₂, m, by rw [hstep]; exact hfold,
              by simp [List.cons_append, hc0, hcs], ?_, h₂⟩
            intro x hx
            rcases List.mem_cons.mp hx with rfl | hx2
            · exact lt_trans hmc (hc0 ▸ hca)
            · exact h₁ x hx2
      · obtain ⟨L₁, L₂, m, hfold, hsplit, h₁, h₂⟩ := ih a
        have hstep : ((c :: cs).foldl scanStep (some a)) = cs.foldl scanStep (some a) := by
          simp [scanStep, hca]
        cases L₁ with
        | nil =>
            simp only [List.nil_append] at hsplit
            have hm : a = m := (List.cons.inj hsplit).1
            have hL : cs = L₂ := (List.cons.inj hsplit).2
            refine ⟨[], c :: L₂, m, by rw [hstep]; exact hfold,
              by rw [List.nil_append, ← hm, hL], by simp, ?_⟩
            intro x hx
            rcases List.mem_cons.mp hx with rfl | hx2
            · rw [← hm]; exact not_lt.mp hca
            · exact h₂ x hx2
        | cons a0 t =>
            simp only [List.cons_append] at hsplit
            have ha0 : a = a0 := (List.cons.inj hsplit).1
            have hcs : cs = t ++ m :: L₂ := (List.cons.inj hsplit).2
            have hma : m.1 < a0.1 := h₁ a0 (List.mem_cons_self _ _)
            refine ⟨a0 :: c :: t, L₂, m, by rw [hstep]; exact hfold,
              by simp [List.cons_append, ← ha0, hcs], ?_, h₂⟩
            intro x hx
            rcases List.mem_cons.mp hx with rfl | hx2
            · exact hma
            · rcases List.mem_cons.mp hx2 with rfl | hx3
              · exact lt_of_lt_of_le hma (ha0 ▸ not_lt.mp hca)
              · exact h₁ x (List.mem_cons_of_mem _ hx3)

lemma findBest_split {dist : Coord → Coord → ℚ} {routes : List (List Stop)}
    {pool : List Stop} {q : ℚ} {di ui : ℕ}
    (h : findBest dist routes pool = some (q, di, ui)) :
    ∃ L₁ L₂, candidates dist routes pool = L₁ ++ (q, di, ui) :: L₂ ∧
      (∀ c ∈ L₁, q < c.1) ∧ (∀ c ∈ L₂, q ≤ c.1) := by
  unfold findBest at h
  cases hc : candidates dist routes pool with
  | nil => rw [hc] at h; simp at h
  | cons c cs =>
      rw [hc] at h
      have hstep : ((c :: cs).foldl scanStep none) = cs.foldl scanStep (some c) := by
        simp [scanStep]
      rw [hstep] at h
      obtain ⟨L₁, L₂, m, hfold, hsplit, h₁, h₂⟩ := foldl_scanStep_split cs c
      rw [hfold] at h
      obtain rfl := Option.some.inj h
      exact ⟨L₁, L₂, hsplit, h₁, h₂⟩

lemma candidates_mem (dist : Coord → Coord → ℚ) (routes : List (List Stop))
    (pool : List Stop) (di ui : ℕ)
    (hdi : di < routes.length) (hui : ui < pool.length) :
    (pairDist dist routes pool di ui, di, ui) ∈ candidates dist routes pool := by
  simp only [candidates, List.mem_flatMap, List.mem_map, List.mem_range]
  exact ⟨di, hdi, ui, hui, rfl⟩

lemma mem_candidates_of {dist : Coord → Coord → ℚ} {routes : List (List Stop)}
    {pool : List Stop} {c : ℚ × ℕ × ℕ} (hc : c ∈ candidates dist routes pool) :
    c.2.1 < routes.length ∧ c.2.2 < pool.length ∧
      c.1 = pairDist dist routes pool c.2.1 c.2.2 := by
  simp only [candidates, List.mem_flatMap, List.mem_map, List.mem_range] at hc
  obtain ⟨di, hdi, ui, hui, rfl⟩ := hc
  exact ⟨hdi, hui, rfl⟩

lemma candidates_pairwise (dist : Coord → Coord → ℚ) (routes : List (List Stop))
    (pool : List Stop) :
    (candidates dist routes pool).Pairwise
      (fun a b => a.2.1 < b.2.1 ∨ (a.2.1 = b.2.1 ∧ a.2.2 < b.2.2)) := by
  unfold candidates
  rw [List.pairwise_flatMap]
  constructor
  · intro di _
    rw [List.pairwise_map]
    exact (List.pairwise_lt_range _).imp fun h => Or.inr ⟨rfl, h⟩
  · refine (List.pairwise_lt_range _).imp ?_
    intro di dj hlt x hx y hy
    simp only [List.mem_map, List.mem_range] at hx hy
    obtain ⟨ui, _, rfl⟩ := hx
    obtain ⟨uj, _, rfl⟩ := hy
    exact Or.inl hlt

lemma findBest_spec_aux {dist : Coord → Coord → ℚ} {routes : List (List Stop)}
    {pool : List Stop} {q : ℚ} {di ui : ℕ}
    (h : findBest dist routes pool = some (q, di, ui)) :
    di < routes.length ∧ ui < pool.length ∧
    q = pairDist dist routes pool di ui ∧
    (∀ dj uj, dj < routes.length → uj < pool.length →
      q ≤ pairDist dist routes pool dj uj) ∧
    (∀ dj uj, dj < routes.length → uj < pool.length →
      pairDist dist routes pool dj uj = q → di < dj ∨ (di = dj ∧ ui ≤ uj)) := by
  obtain ⟨L₁, L₂, hsplit, h₁, h₂⟩ := findBest_split h
  have hm : (q, di, ui) ∈ candidates dist routes pool := by
    rw [hsplit]; exact List.mem_append_right _ (List.mem_cons_self _ _)
  obtain ⟨hdi, hui, hq⟩ := mem_candidates_of hm
  refine ⟨hdi, hui, hq, ?_, ?_⟩
  · intro dj uj hdj huj
    have hcj := candidates_mem dist routes pool dj uj hdj huj
    rw [hsplit] at hcj
    rcases List.mem_append.mp hcj with h1 | h2
    · exact le_of_lt (h₁ _ h1)
    · rcases List.mem_cons.mp h2 with heq | h3
      · obtain ⟨he1, -⟩ := Prod.mk.inj heq
        exact le_of_eq he1.symm
      · exact h₂ _ h3
  · intro dj uj hdj huj heqd
    have hcj := candidates_mem dist routes pool dj uj hdj huj
    rw [hsplit] at hcj
    rcases List.mem_append.mp hcj with h1 | h2
    · exact absurd (heqd ▸ h₁ _ h1) (lt_irrefl q)
    · rcases List.mem_cons.mp h2 with heq | h3
      · obtain ⟨-, he2⟩ := Prod.mk.inj heq
        obtain ⟨he3, he4⟩ := Prod.mk.inj he2
        exact Or.inr ⟨he3.symm, le_of_eq he4.symm⟩
      · have hp := candidates_pairwise dist routes pool
        rw [hsplit] at hp
        have hp2 := hp.sublist (List.sublist_append_right L₁ _)
        rcases (List.pairwise_cons.mp hp2).1 _ h3 with hlt | ⟨heq2, hlt2⟩
        · exact Or.inl hlt
        · exact Or.inr ⟨heq2, le_of_lt hlt2⟩

lemma findBest_isSome (dist : Coord → Coord → ℚ) {routes : List (List Stop)}
    {pool : List Stop} (hr : routes ≠ []) (hp : pool ≠ []) :
    ∃ q di ui, findBest dist routes pool = some (q, di, ui) := by
  cases hcs : candidates dist routes pool with
  | nil =>
      have hmem := candidates_mem dist routes pool 0 0
        (List.length_pos.mpr hr) (List.length_pos.mpr hp)
      rw [hcs] at hmem
      exact absurd hmem (List.not_mem_nil _)
  | cons c cs =>
      unfold findBest
      rw [hcs]
      have hstep : ((c :: cs).foldl scanStep none) = cs.foldl scanStep (some c) := by
        simp [scanStep]
      rw [hstep]
      obtain ⟨L₁, L₂, m, hfold, -, -, -⟩ := foldl_scanStep_split cs c
      exact ⟨m.1, m.2.1, m.2.2, by rw [hfold]⟩

/-- C2: whenever the scan of one assignment step returns a pair, routes and
pool indices are in range, the reported distance is the distance from that
driver's current last stop to that delivery, it is the global minimum over
the full driver × unassigned-delivery cross-product, ties go to the first
pair in (driver index, then delivery index) ascending enumeration order, and
the loop iteration appends exactly that delivery to that driver's route while
removing it from the pool. -/
theorem findBest_selects_global_min (dist : Coord → Coord → ℚ)
    (routes : List (List Stop)) (unassigned : List Stop) (q : ℚ) (di ui : ℕ)
    (h : findBest dist routes unassigned = some (q, di, ui)) :
    di < routes.length ∧ ui < unassigned.length ∧
    q = pairDist dist routes unassigned di ui ∧
    (∀ dj uj, dj < routes.length → uj < unassigned.length →
      q ≤ pairDist dist routes unassigned dj uj) ∧
    (∀ dj uj, dj < routes.length → uj < unassigned.length →
      pairDist dist routes unassigned dj uj = q →
      di < dj ∨ (di = dj ∧ ui ≤ uj)) ∧
    (∀ fuel, assignLoop dist (fuel + 1) routes unassigned =
      assignLoop dist fuel
        (routes.set di (routes.getD di [] ++ [unassigned.getD ui dummyStop]))
        (unassigned.eraseIdx ui)) := by
  obtain ⟨hdi, hui, hq, hmin, htie⟩ := findBest_spec_aux h
  refine ⟨hdi, hui, hq, hmin, htie, ?_⟩
  intro fuel
  have hne : unassigned ≠ [] := by
    intro h0
    rw [h0] at hui
    exact absurd hui (by simp)
  simp only [assignLoop, if_neg hne, h]

theorem findBest_selects_global_min_witness :
    findBest (fun _ _ => 0) [[startStop (0, 0)]] [⟨"A", (0, 1)⟩] =
      some (0, 0, 0) ∧
    (0 : ℕ) < ([[startStop (0, 0)]] : List (List Stop)).length :=
  ⟨by decide,
   (findBest_selects_global_min (fun _ _ => 0) [[startStop (0, 0)]]
      [⟨"A", (0, 1)⟩] 0 0 0 (by decide)).1⟩

lemma perm_getD_cons_eraseIdx {α : Type} (l : List α) (i : ℕ) (d : α)
    (h : i < l.length) : l.Perm (l.getD i d :: l.eraseIdx i) := by
  conv_lhs => rw [← List.take_append_drop i l, List.drop_eq_getElem_cons h]
  rw [List.eraseIdx_eq_take_drop_succ, List.getD_eq_getElem l d h]
  exact List.perm_middle

lemma flatten_drop_set (routes : List (List Stop)) (di : ℕ) (x : Stop)
    (hdi : di < routes.length) (hne : routes.getD di [] ≠ []) :
    (((routes.set di (routes.getD di [] ++ [x])).map
        (fun r => r.drop 1)).flatten : Multiset Stop) =
      ((routes.map (fun r => r.drop 1)).flatten : Multiset Stop) + ↑[x] := by
  rw [List.set_eq_take_cons_drop _ hdi]
  conv_rhs => rw [← List.take_append_drop di routes, List.drop_eq_getElem_cons hdi]
  rw [List.getD_eq_getElem routes [] hdi] at hne ⊢
  simp only [List.map_append, List.map_cons, List.flatten_append, List.flatten_cons]
  rw [List.drop_append_of_le_length (List.length_pos.mpr hne)]
  simp only [← Multiset.coe_add]
  abel

lemma assignLoop_drains (dist : Coord → Coord → ℚ) :
    ∀ (fuel : ℕ) (routes : List (List Stop)) (pool : List Stop),
      pool.length ≤ fuel → routes ≠ [] → (∀ r ∈ routes, r ≠ []) →
      (assignLoop dist fuel routes pool).2 = [] ∧
      (((assignLoop dist fuel routes pool).1.map
          (fun r => r.drop 1)).flatten : Multiset Stop) =
        ((routes.map (fun r => r.drop 1)).flatten : Multiset Stop) + ↑pool ∧
      (assignLoop dist fuel routes pool).1.length = routes.length ∧
      ∀ r ∈ (assignLoop dist fuel routes pool).1, r ≠ [] := by
  intro fuel
  induction fuel with
  | zero =>
      intro routes pool hlen hr hne
      have hp : pool = [] := List.length_eq_zero.mp (Nat.le_zero.mp hlen)
      subst hp
      exact ⟨rfl, by simp [assignLoop], rfl, hne⟩
  | succ fuel ih =>
      intro routes pool hlen hr hne
      by_cases hp : pool = []
      · subst hp
        exact ⟨by simp [assignLoop], by simp [assignLoop], by simp [assignLoop], by
          simpa [assignLoop] using hne⟩
      · obtain ⟨q, di, ui, hfb⟩ := findBest_isSome dist hr hp
        obtain ⟨hdi, hui, -, -, -⟩ := findBest_spec_aux hfb
        have hstep : assignLoop dist (fuel + 1) routes pool =
            assignLoop dist fuel
              (routes.set di (routes.getD di [] ++ [pool.getD ui dummyStop]))
              (pool.eraseIdx ui) := by
          simp only [assignLoop, if_neg hp, hfb]
        have hlen' : (pool.eraseIdx ui).length ≤ fuel := by
          rw [List.length_eraseIdx_of_lt hui]
          omega
        have hr' : routes.set di (routes.getD di [] ++ [pool.getD ui dummyStop]) ≠ [] := by
          apply List.ne_nil_of_length_pos
          rw [List.length_set]
          exact List.length_pos.mpr hr
        have hne' : ∀ r ∈ routes.set di (routes.getD di [] ++ [pool.getD ui dummyStop]),
            r ≠ [] := by
          intro r hrr
          rcases List.mem_or_eq_of_mem_set hrr with h1 | h2
          · exact hne r h1
          · rw [h2]; simp
        obtain ⟨ih1, ih2, ih3, ih4⟩ := ih _ _ hlen' hr' hne'
        refine ⟨by rw [hstep]; exact ih1, ?_,
          by rw [hstep, ih3, List.length_set], by rw [hstep]; exact ih4⟩
        rw [hstep, ih2]
        have hgd : routes.getD di [] ≠ [] := by
          rw [List.getD_eq_getElem routes [] hdi]
          exact hne _ (List.getElem_mem hdi)
        rw [flatten_drop_set routes di _ hdi hgd]
        have hperm : pool.Perm (pool.getD ui dummyStop :: pool.eraseIdx ui) :=
          perm_getD_cons_eraseIdx pool ui dummyStop hui
        have hcoe : (↑pool : Multiset Stop) =
            ↑(pool.getD ui dummyStop :: pool.eraseIdx ui) :=
          Multiset.coe_eq_coe.mpr hperm
        rw [hcoe, ← Multiset.cons_coe, Multiset.coe_nil, add_assoc,
          Multiset.cons_add, zero_add, Multiset.cons_coe]

/-- C1: for every non-empty delivery list and driver count at least 1, the
multiset union of all route contents excluding the seeded start stops equals
the input delivery list — every delivery assigned exactly once, none dropped
or duplicated — and the unassigned pool is empty when the loop returns. -/
theorem optimize_routes_complete (dist : Coord → Coord → ℚ)
    (start_coords : Coord) (deliveries : List Stop) (num_drivers : ℤ)
    (hd : deliveries ≠ []) (hn : 1 ≤ num_drivers) :
    (((optimize_routes dist start_coords deliveries num_drivers).map
        (fun r => r.drop 1)).flatten : Multiset Stop) = ↑deliveries ∧
    (assignLoop dist deliveries.length
        (initRoutes start_coords num_drivers.toNat) deliveries).2 = [] := by
  have hguard : ¬(deliveries = [] ∨ num_drivers ≤ 0) := by
    push_neg
    exact ⟨hd, by omega⟩
  have hr : initRoutes start_coords num_drivers.toNat ≠ [] := by
    apply List.ne_nil_of_length_pos
    simp only [initRoutes, List.length_replicate]
    omega
  have hne : ∀ r ∈ initRoutes start_coords num_drivers.toNat, r ≠ [] := by
    intro r hr2
    rw [List.eq_of_mem_replicate hr2]
    simp
  obtain ⟨h1, h2, -, -⟩ := assignLoop_drains dist deliveries.length
    (initRoutes start_coords num_drivers.toNat) deliveries (le_refl _) hr hne
  refine ⟨?_, h1⟩
  rw [optimize_routes, if_neg hguard, h2]
  have hzero : ((initRoutes start_coords num_drivers.toNat).map
      (fun r => r.drop 1)).flatten = ([] : List Stop) := by
    simp [initRoutes]
  rw [hzero]
  simp

theorem optimize_routes_complete_witness :
    ([⟨"A", (0, 1)⟩] : List Stop) ≠ [] ∧ (1 : ℤ) ≤ 1 ∧
    ((((optimize_routes (fun _ _ => 0) (0, 0) [⟨"A", (0, 1)⟩] 1).map
        (fun r => r.drop 1)).flatten : Multiset Stop) =
      ↑([⟨"A", (0, 1)⟩] : List Stop) ∧
    (assignLoop (fun _ _ => 0) 1 (initRoutes (0, 0) 1) [⟨"A", (0, 1)⟩]).2 = []) :=
  ⟨by decide, by decide,
   optimize_routes_complete (fun _ _ => 0) (0, 0) [⟨"A", (0, 1)⟩] 1
     (by decide) (by decide)⟩

lemma readL_writeL_self (σ : ListStore) (p : ℕ) (v : List Stop)
    (h : p < σ.length) : readL (writeL σ p v) p = v := by
  simp [readL, writeL, List.getElem?_set_self h]

lemma readL_writeL_ne (σ : ListStore) (p r : ℕ) (v : List Stop)
    (h : r ≠ p) : readL (writeL σ p v) r = readL σ r := by
  simp [readL, writeL, List.getElem?_set_ne (Ne.symm h)]

lemma assignLoopH_eq (dist : Coord → Coord → ℚ) :
    ∀ (fuel : ℕ) (routes : List (List Stop)) (σ : ListStore) (p : ℕ),
      p < σ.length →
      (assignLoopH dist fuel routes σ p).1 =
        (assignLoop dist fuel routes (readL σ p)).1 ∧
      (∀ r, r ≠ p →
        readL (assignLoopH dist fuel routes σ p).2 r = readL σ r) ∧
      (assignLoopH dist fuel routes σ p).2.length = σ.length := by
  intro fuel
  induction fuel with
  | zero =>
      intro routes σ p hp
      exact ⟨rfl, fun r _ => rfl, rfl⟩
  | succ fuel ih =>
      intro routes σ p hp
      by_cases hpool : readL σ p = []
      · refine ⟨?_, ?_, ?_⟩
        · simp [assignLoopH, assignLoop, hpool]
        · intro r _
          simp [assignLoopH, hpool]
        · simp [assignLoopH, hpool]
      · cases hfb : findBest dist routes (readL σ p) with
        | none =>
            refine ⟨?_, ?_, ?_⟩
            · simp [assignLoopH, assignLoop, hpool, hfb]
            · intro r _
              simp [assignLoopH, hpool, hfb]
            · simp [assignLoopH, hpool, hfb]
        | some m =>
            obtain ⟨q, di, ui⟩ := m
            have hH : assignLoopH dist (fuel + 1) routes σ p =
                assignLoopH dist fuel
                  (routes.set di
                    (routes.getD di [] ++ [(readL σ p).getD ui dummyStop]))
                  (writeL σ p ((readL σ p).eraseIdx ui)) p := by
              simp only [assignLoopH, if_neg hpool, hfb]
            have hP : assignLoop dist (fuel + 1) routes (readL σ p) =
                assignLoop dist fuel
                  (routes.set di
                    (routes.getD di [] ++ [(readL σ p).getD ui dummyStop]))
                  ((readL σ p).eraseIdx ui) := by
              simp only [assignLoop, if_neg hpool, hfb]
            have hp' : p < (writeL σ p ((readL σ p).eraseIdx ui)).length := by
              rw [writeL, List.length_set]
              exact hp
            obtain ⟨e1, e2, e3⟩ := ih
              (routes.set di
                (routes.getD di [] ++ [(readL σ p).getD ui dummyStop]))
              (writeL σ p ((readL σ p).eraseIdx ui)) p hp'
            refine ⟨?_, ?_, ?_⟩
            · rw [hH, hP, e1, readL_writeL_self σ p _ hp]
            · intro r hr
              rw [hH, e2 r hr, readL_writeL_ne σ p r _ hr]
            · rw [hH, e3, writeL, List.length_set]

/-- C3 counterexample: with an empty delivery list and one driver, the guard
at line 38 of app.py returns the empty list of routes, not one route holding
only the start stop. -/
theorem optimize_routes_empty_deliveries_cex :
    optimize_routes (fun _ _ => 0) (0, 0) ([] : List Stop) 1 = [] ∧
    optimize_routes (fun _ _ => 0) (0, 0) ([] : List Stop) 1 ≠
      [[startStop (0, 0)]] := by
  exact ⟨rfl, by decide⟩

/-- C3 (amended): for every distance function, start coordinate and driver
count, an empty delivery list makes optimize_routes return an empty list of
Routes (the line 38 guard), not per-driver seeded routes. -/
theorem optimize_routes_empty_deliveries (dist : Coord → Coord → ℚ)
    (start_coords : Coord) (num_drivers : ℤ) :
    optimize_routes dist start_coords [] num_drivers = [] := by
  simp [optimize_routes]

/-- C4: for every start coordinate and delivery list, a driver count `≤ 0`
makes optimize_routes return an empty list of Routes immediately; the
function is total, so no error is raised. -/
theorem optimize_routes_nonpos_drivers (dist : Coord → Coord → ℚ)
    (start_coords : Coord) (deliveries : List Stop) (num_drivers : ℤ)
    (h : num_drivers ≤ 0) :
    optimize_routes dist start_coords deliveries num_drivers = [] := by
  simp [optimize_routes, h]

theorem optimize_routes_nonpos_drivers_witness :
    ((0 : ℤ) ≤ 0) ∧
    optimize_routes (fun _ _ => 0) (0, 0) [⟨"A", (0, 1)⟩] 0 = [] :=
  ⟨by decide, optimize_routes_nonpos_drivers _ _ _ _ (by decide)⟩

/-- C5: the baseline evaluator returns exactly the sum of the consecutive
pairwise distances start → d0 → d1 → ... → dlast in input order, and 0 on an
empty delivery list. -/
theorem baseline_eq_leg_sum (dist : Coord → Coord → ℚ) (start_coords : Coord)
    (deliveries : List Stop) :
    baseline dist start_coords deliveries =
      (legDistances dist start_coords deliveries).sum ∧
    baseline dist start_coords [] = 0 := by
  constructor
  · simpa using baseline_foldl_aux dist deliveries 0 start_coords
  · rfl

/-- C6: the cost calculation returns (D / E) × P for positive fuel price P
and economy E; cost of distance 0 is 0, and 100 miles at $4.00/gal and
25 mpg costs exactly $16.00. -/
theorem fuel_cost_spec (D P E : ℚ) (hP : 0 < P) (hE : 0 < E) :
    fuel_cost D E P = (D / E) * P ∧ fuel_cost 0 E P = 0 ∧
    fuel_cost 100 25 4 = 16 := by
  refine ⟨rfl, by simp [fuel_cost], by norm_num [fuel_cost]⟩

theorem fuel_cost_spec_witness :
    (0 : ℚ) < 4 ∧ (0 : ℚ) < 25 ∧
    (fuel_cost 100 25 4 = (100 / 25) * 4 ∧ fuel_cost 0 25 4 = 0 ∧
      fuel_cost 100 25 4 = 16) :=
  ⟨by norm_num, by norm_num, fuel_cost_spec 100 4 25 (by norm_num) (by norm_num)⟩

/-- C7: savings are computed as baseline minus optimized for distance and
cost, unclamped: an optimized total above the baseline yields negative
savings. -/
theorem savings_unclamped (b o bc oc : ℚ) :
    distance_saved b o = b - o ∧ fuel_cost_saved bc oc = bc - oc ∧
    (b < o → distance_saved b o < 0) ∧ (bc < oc → fuel_cost_saved bc oc < 0) := by
  refine ⟨rfl, rfl, fun h => ?_, fun h => ?_⟩
  · exact sub_neg.mpr h
  · exact sub_neg.mpr h

theorem savings_unclamped_witness :
    distance_saved 1 2 < 0 ∧ fuel_cost_saved 3 5 < 0 :=
  ⟨(savings_unclamped 1 2 3 5).2.2.1 (by norm_num),
   (savings_unclamped 1 2 3 5).2.2.2 (by norm_num)⟩

/-- C8: optimize_routes is a pure deterministic function of its inputs: two
calls on equal start coordinates, equal delivery lists and equal driver
counts return equal route lists. -/
theorem optimize_routes_deterministic (dist : Coord → Coord → ℚ)
    (s₁ s₂ : Coord) (ds₁ ds₂ : List Stop) (n₁ n₂ : ℤ)
    (hs : s₁ = s₂) (hd : ds₁ = ds₂) (hn : n₁ = n₂) :
    optimize_routes dist s₁ ds₁ n₁ = optimize_routes dist s₂ ds₂ n₂ := by
  rw [hs, hd, hn]

theorem optimize_routes_deterministic_witness :
    ((0, 0) : Coord) = (0, 0) ∧ ([⟨"A", (0, 1)⟩] : List Stop) = [⟨"A", (0, 1)⟩] ∧
    (1 : ℤ) = 1 ∧
    optimize_routes (fun _ _ => 0) (0, 0) [⟨"A", (0, 1)⟩] 1 =
      optimize_routes (fun _ _ => 0) (0, 0) [⟨"A", (0, 1)⟩] 1 :=
  ⟨rfl, rfl, rfl,
   optimize_routes_deterministic (fun _ _ => 0) (0, 0) (0, 0) _ _ 1 1 rfl rfl rfl⟩

/-- C10: optimize_routes leaves the caller's deliveries list unchanged.  In
the store model the caller's list is object `delRef`; line 43 copies it into
a fresh object and the loop pops only from the copy, so after the call the
object `delRef` holds exactly the list it held before — same length, same
elements, same order — and the routes returned agree with the pure
`optimize_routes` on that list. -/
theorem optimize_routes_no_mutation (dist : Coord → Coord → ℚ)
    (start_coords : Coord) (σ : ListStore) (delRef : ℕ) (num_drivers : ℤ)
    (h : delRef < σ.length) :
    readL (optimize_routes_heap dist start_coords σ delRef num_drivers).2
        delRef = readL σ delRef ∧
    (optimize_routes_heap dist start_coords σ delRef num_drivers).1 =
      optimize_routes dist start_coords (readL σ delRef) num_drivers := by
  by_cases hg : readL σ delRef = [] ∨ num_drivers ≤ 0
  · constructor
    · simp [optimize_routes_heap, hg]
    · simp [optimize_routes_heap, optimize_routes, hg]
  · have halloc : readL (σ ++ [readL σ delRef]) σ.length = readL σ delRef := by
      simp [readL, List.getElem?_concat_length]
    have hpres : readL (σ ++ [readL σ delRef]) delRef = readL σ delRef := by
      simp [readL, List.getElem?_append_left h]
    have hlen1 : σ.length < (σ ++ [readL σ delRef]).length := by simp
    obtain ⟨e1, e2, e3⟩ := assignLoopH_eq dist (readL σ delRef).length
      (initRoutes start_coords num_drivers.toNat) (σ ++ [readL σ delRef])
      σ.length hlen1
    have hneq : delRef ≠ σ.length := Nat.ne_of_lt h
    constructor
    · rw [optimize_routes_heap, if_neg hg, e2 delRef hneq, hpres]
    · rw [optimize_routes_heap, if_neg hg, optimize_routes, if_neg hg, e1, halloc]

theorem optimize_routes_no_mutation_witness :
    (0 : ℕ) < ([[⟨"A", (0, 1)⟩]] : ListStore).length ∧
    (readL (optimize_routes_heap (fun _ _ => 0) (0, 0)
        [[⟨"A", (0, 1)⟩]] 0 1).2 0 = readL [[⟨"A", (0, 1)⟩]] 0 ∧
      (optimize_routes_heap (fun _ _ => 0) (0, 0) [[⟨"A", (0, 1)⟩]] 0 1).1 =
        optimize_routes (fun _ _ => 0) (0, 0) (readL [[⟨"A", (0, 1)⟩]] 0) 1) :=
  ⟨by decide,
   optimize_routes_no_mutation (fun _ _ => 0) (0, 0) [[⟨"A", (0, 1)⟩]] 0 1
     (by decide)⟩

lemma sin_half_sub_sq_comm (x y : ℝ) :
    Real.sin ((x - y) / 2) ^ 2 = Real.sin ((y - x) / 2) ^ 2 := by
  have h : (x - y) / 2 = -((y - x) / 2) := by ring
  rw [h, Real.sin_neg, neg_sq]

/-- C9: the great-circle distance function is symmetric, and the distance
from any finite coordinate to itself is 0. -/
theorem calculate_distance_symm_self (A B : ℝ × ℝ) :
    calculate_distance A B = calculate_distance B A ∧
    calculate_distance A A = 0 := by
  constructor
  · have h : Real.sin ((toRadians B.1 - toRadians A.1) / 2) ^ 2 +
        Real.cos (toRadians A.1) * Real.cos (toRadians B.1) *
          Real.sin ((toRadians B.2 - toRadians A.2) / 2) ^ 2 =
        Real.sin ((toRadians A.1 - toRadians B.1) / 2) ^ 2 +
        Real.cos (toRadians B.1) * Real.cos (toRadians A.1) *
          Real.sin ((toRadians A.2 - toRadians B.2) / 2) ^ 2 := by
      rw [sin_half_sub_sq_comm (toRadians B.1) (toRadians A.1),
          sin_half_sub_sq_comm (toRadians B.2) (toRadians A.2)]
      ring
    unfold calculate_distance
    rw [h]
  · unfold calculate_distance
    simp

end App
